import Mathlib

/-!
Verification of the parser-combinator core of the rust-regex repository
(src/src/parser/mod.rs and src/src/parser/combinators.rs).

Modelling conventions:
a Rust string slice is a list of characters (a remainder suffix of the
input corresponds to List.drop); a parser is a pure function from input
to Result; the while-let loop of repeat_range is unfolded with an explicit
fuel parameter, where a `none` outcome means the loop has not exited within
that many iterations (the Rust loop can genuinely run forever, which the
fuel-indexed family makes provable); a possible panic of Option::expect is
modelled by an outer Option whose `none` stands for the panic.
-/

/-- Input text: a Rust string slice modelled as a list of characters. -/
abbrev Str : Type := List Char

/-- ParserError, from src/src/parser/mod.rs lines 7-13. The String payloads
of Error and UnexpectedMatch are modelled as Str. -/
inductive ParserError where
  | Error : Str → ParserError
  | RepeatUpper : Nat → ParserError
  | RepeatLower : Nat → ParserError
  | UnexpectedMatch : Str → ParserError
  deriving DecidableEq, Repr

/-- ParserResult, from mod.rs line 15: Result of (Output, remaining input)
or ParserError. -/
abbrev ParserResult (α : Type) : Type := Except ParserError (α × Str)

/-- A parser: the blanket Parser impl for functions of mod.rs lines 40-44
makes any function of this shape a parser, and parse is application. -/
abbrev ParserFun (α : Type) : Type := Str → ParserResult α

/-- Result::is_err. -/
def isErr (r : Except ε α) : Bool :=
  match r with
  | .error _ => true
  | .ok _ => false

/-- Result::or, as used by either (combinators.rs line 94): the first result
when it is Ok, otherwise the second. -/
def resultOr (a b : Except ε α) : Except ε α :=
  match a with
  | .ok v => .ok v
  | .error _ => b

/-- Option::expect on the stop bound of repeat_range (combinators.rs
line 47). Rust panics on None; the panic is modelled by the `none` of the
result, so the function is the identity on Option. -/
def expectModel (o : Option Nat) : Option Nat := o

/-- Modelled from the spec: ParseElement is declared in
src/src/parser/parsers.rs, which is not among the staged source files; only
its use at combinators.rs line 113 is visible. No claim inspects its
contents (quantified returns its argument unchanged), so it is a
single-constructor placeholder type. -/
inductive ParseElement where
  | mk : ParseElement

namespace combinators

/-- map, combinators.rs lines 3-10. -/
def map (p : ParserFun α) (f : α → β) : ParserFun β :=
  fun input => (p input).map (fun (a, remain) => (f a, remain))

/-- pair, combinators.rs lines 12-21. -/
def pair (p1 : ParserFun α) (p2 : ParserFun β) : ParserFun (α × β) :=
  fun input =>
    (p1 input).bind (fun (res1, remain1) =>
      (p2 remain1).map (fun (res2, remain2) => ((res1, res2), remain2)))

/-- left, combinators.rs lines 23-29. -/
def left (p1 : ParserFun α) (p2 : ParserFun β) : ParserFun α :=
  map (pair p1 p2) (fun (r1, _r2) => r1)

/-- right, combinators.rs lines 31-37. -/
def right (p1 : ParserFun α) (p2 : ParserFun β) : ParserFun β :=
  map (pair p1 p2) (fun (_r1, r2) => r2)

/-- One evaluation of the loop condition of repeat_range (combinators.rs
line 47): p.parse(input).and_then of the upper-bound check. The outer
Option models a panic of the embedded Option::expect: `none` is the panic.
`len` is result.len() at this iteration. -/
def repeatStep (p : ParserFun α) (stop : Option Nat) (len : Nat) (input : Str) :
    Option (ParserResult α) :=
  match p input with
  | .error e => some (.error e)
  | .ok t =>
    if stop.all (fun stp => decide (len < stp)) then some (.ok t)
    else (expectModel stop).map (fun stp => .error (.RepeatUpper stp))

/-- The while-let loop of repeat_range (combinators.rs lines 44-51), unfolded
fuel times: `result` is the vector of collected results, and the loop body
pushes the new result and advances the input. A `some` outcome is the state
at which the loop exited (the condition returned an Err, which the while-let
discards); `none` means the loop had not exited after `fuel` iterations.
The panic outcome of repeatStep is folded into the exit branch; the theorem
for C7 shows it never occurs. -/
def repeatRangeAux (p : ParserFun α) (stop : Option Nat) :
    Nat → List α → Str → Option (List α × Str)
  | 0, _, _ => none
  | fuel + 1, result, input =>
    match repeatStep p stop result.length input with
    | some (.ok (res, rem)) => repeatRangeAux p stop fuel (result ++ [res]) rem
    | _ => some (result, input)

/-- repeat_range, combinators.rs lines 40-54: run the loop, then succeed
when at least `start` results were collected, otherwise fail with
RepeatLower(start). -/
def repeat_range (p : ParserFun α) (start : Nat) (stop : Option Nat) (fuel : Nat) :
    Str → Option (ParserResult (List α)) :=
  fun input =>
    (repeatRangeAux p stop fuel [] input).map
      (fun (result, rem) =>
        if start ≤ result.length then .ok (result, rem)
        else .error (.RepeatLower start))

/-- zero_or_more, combinators.rs lines 56-61. -/
def zero_or_more (p : ParserFun α) (fuel : Nat) : Str → Option (ParserResult (List α)) :=
  repeat_range p 0 none fuel

/-- one_or_more, combinators.rs lines 63-68. -/
def one_or_more (p : ParserFun α) (fuel : Nat) : Str → Option (ParserResult (List α)) :=
  repeat_range p 1 none fuel

/-- predicate, combinators.rs lines 70-77. -/
def predicate (p : ParserFun α) (pred : α → Bool) : ParserFun α :=
  fun input =>
    (p input).bind (fun (res, rem) =>
      if pred res then .ok (res, rem) else .error (.Error input))

/-- and_then, combinators.rs lines 79-87. -/
def and_then (p : ParserFun α) (f : α → ParserFun β) : ParserFun β :=
  fun input => (p input).bind (fun (a, rem) => f a rem)

/-- either, combinators.rs lines 89-95: p1.parse(input).or(p2.parse(input)). -/
def either (p1 p2 : ParserFun α) : ParserFun α :=
  fun input => resultOr (p1 input) (p2 input)

/-- not, combinators.rs lines 97-102. -/
def not (p : ParserFun α) : ParserFun Unit :=
  fun input =>
    if isErr (p input) then .ok ((), input)
    else .error (.UnexpectedMatch input)

/-- not_but, combinators.rs lines 104-110. -/
def not_but (p1 : ParserFun α) (p2 : ParserFun β) : ParserFun β :=
  right (not p1) p2

/-- quantified, combinators.rs lines 112-118: returns its argument. -/
def quantified (p : ParserFun ParseElement) : ParserFun ParseElement :=
  p

end combinators

/-- BoxedParser, mod.rs lines 46-59: an owned wrapper around a parser. -/
structure BoxedParser (α : Type) where
  inner : ParserFun α

/-- BoxedParser::new, mod.rs lines 51-58. -/
def BoxedParser.new (p : ParserFun α) : BoxedParser α :=
  { inner := p }

/-- Parser impl for BoxedParser, mod.rs lines 61-65: delegate to inner. -/
def BoxedParser.parse (b : BoxedParser α) : ParserFun α :=
  fun input => b.inner input

/-- Parser::map trait method, mod.rs lines 20-28. -/
def Parser.map (p : ParserFun α) (f : α → β) : BoxedParser β :=
  BoxedParser.new (combinators.map p f)

/-- Parser::predicate trait method, mod.rs lines 30-37. -/
def Parser.predicate (p : ParserFun α) (f : α → Bool) : BoxedParser α :=
  BoxedParser.new (combinators.predicate p f)

/-- Modelled from the spec: match_literal is declared in
src/src/parser/parsers.rs, not among the staged source files. Spec section
4.3: succeeds consuming exactly the literal as a prefix of the input
(case-sensitive), yielding no value; fails otherwise reporting the original
input. The tests in mod.rs (test_match_literal, lines 220-226) pin the same
behaviour. -/
def match_literal (l : Str) : ParserFun Unit :=
  fun input =>
    if l.isPrefixOf input then .ok ((), input.drop l.length)
    else .error (.Error input)

/-- Modelled from the spec: any_char is declared in
src/src/parser/parsers.rs, not among the staged source files. Spec section
4.3: succeeds consuming one character, yielding it; fails on empty input.
The test test_any_char (mod.rs lines 228-232) shows the failure payload is
the (empty) original input. -/
def any_char : ParserFun Char :=
  fun input =>
    match input with
    | [] => .error (.Error [])
    | c :: rest => .ok (c, rest)

/-- Chain p s rs t holds when p, applied successively starting from input s,
succeeds rs.length times with the results rs, leaving remaining input t. -/
def Chain (p : ParserFun α) : Str → List α → Str → Prop
  | s, [], t => t = s
  | s, r :: rs, t => ∃ rem, p s = .ok (r, rem) ∧ Chain p rem rs t

/-- Diverges run means the fuel-indexed unfolding never exits: the modelled
Rust loop runs forever. -/
def Diverges (run : Nat → Option β) : Prop :=
  ∀ fuel, run fuel = none

deriving instance DecidableEq for Except

/-- A Result is an error exactly when it is built by Except.error. -/
theorem isErr_eq_true_iff {ε α : Type} (r : Except ε α) :
    isErr r = true ↔ ∃ e, r = .error e := by
  cases r <;> simp [isErr]

/-- The loop condition yields Ok exactly when the sub-parser succeeded and
the number of collected results is still below the upper bound. -/
theorem repeatStep_eq_ok_iff {α : Type} {p : ParserFun α} {stop : Option Nat}
    {len : Nat} {input : Str} {t : α × Str} :
    combinators.repeatStep p stop len input = some (.ok t) ↔
      p input = .ok t ∧ ∀ stp, stop = some stp → len < stp := by
  cases h : p input with
  | error e => simp [combinators.repeatStep, h]
  | ok u =>
    cases stop with
    | none => simp [combinators.repeatStep, h]
    | some stp =>
      by_cases hlt : len < stp
      · simp [combinators.repeatStep, h, hlt]
      · simp [combinators.repeatStep, h, hlt, expectModel]

/-- When the sub-parser runs through the whole chain rs below the upper
bound and then fails, the loop exits at the chain's end with all of rs
appended to the accumulator. -/
theorem repeatRangeAux_chain_err {α : Type} {p : ParserFun α} {stop : Option Nat} :
    ∀ (rs acc : List α) (input mid : Str) (fuel : Nat),
      Chain p input rs mid → isErr (p mid) = true →
      (∀ stp, stop = some stp → acc.length + rs.length ≤ stp) →
      rs.length < fuel →
      combinators.repeatRangeAux p stop fuel acc input = some (acc ++ rs, mid) := by
  intro rs
  induction rs with
  | nil =>
    intro acc input mid fuel hchain herr hstop hfuel
    have hmid : mid = input := hchain
    subst hmid
    obtain ⟨e, he⟩ := (isErr_eq_true_iff _).mp herr
    cases fuel with
    | zero => omega
    | succ f =>
      simp [combinators.repeatRangeAux, combinators.repeatStep, he]
  | cons r rs2 ih =>
    intro acc input mid fuel hchain herr hstop hfuel
    obtain ⟨rem, hp, hchain2⟩ := hchain
    cases fuel with
    | zero => omega
    | succ f =>
      have hstep : combinators.repeatStep p stop acc.length input = some (.ok (r, rem)) := by
        rw [repeatStep_eq_ok_iff]
        refine ⟨hp, fun stp hs => ?_⟩
        have := hstop stp hs
        simp at this
        omega
      have hrec := ih (acc ++ [r]) rem mid f hchain2 herr
        (by
          intro stp hs
          have := hstop stp hs
          simp at this ⊢
          omega)
        (by simp at hfuel; omega)
      simp only [combinators.repeatRangeAux, hstep]
      rw [hrec]
      simp

/-- When the sub-parser runs through the chain rs and the accumulated count
then reaches the upper bound, the loop exits at the chain's end with all of
rs appended to the accumulator (whether or not the sub-parser could match
again). -/
theorem repeatRangeAux_chain_stop {α : Type} {p : ParserFun α} {stp : Nat} :
    ∀ (rs acc : List α) (input mid : Str) (fuel : Nat),
      Chain p input rs mid →
      acc.length + rs.length = stp →
      rs.length < fuel →
      combinators.repeatRangeAux p (some stp) fuel acc input = some (acc ++ rs, mid) := by
  intro rs
  induction rs with
  | nil =>
    intro acc input mid fuel hchain hstop hfuel
    have hmid : mid = input := hchain
    subst hmid
    simp at hstop
    cases fuel with
    | zero => omega
    | succ f =>
      cases hp : p mid with
      | error e =>
        simp [combinators.repeatRangeAux, combinators.repeatStep, hp]
      | ok t =>
        simp [combinators.repeatRangeAux, combinators.repeatStep, hp, hstop, expectModel]
  | cons r rs2 ih =>
    intro acc input mid fuel hchain hstop hfuel
    obtain ⟨rem, hp, hchain2⟩ := hchain
    cases fuel with
    | zero => omega
    | succ f =>
      have hstep : combinators.repeatStep p (some stp) acc.length input = some (.ok (r, rem)) := by
        rw [repeatStep_eq_ok_iff]
        refine ⟨hp, fun stp2 hs => ?_⟩
        cases hs
        simp at hstop
        omega
      have hrec := ih (acc ++ [r]) rem mid f hchain2
        (by simp at hstop ⊢; omega)
        (by simp at hfuel; omega)
      simp only [combinators.repeatRangeAux, hstep]
      rw [hrec]
      simp

/-- C2: either(p1, p2) tries p1; when p1 fails on s it returns exactly the
result of p2 on the original input s, and when p1 succeeds it returns p1's
result. -/
theorem C2_either_backtracks {α : Type} (p1 p2 : ParserFun α) (s : Str) :
    (∀ e, p1 s = .error e → combinators.either p1 p2 s = p2 s) ∧
    (∀ v, p1 s = .ok v → combinators.either p1 p2 s = .ok v) := by
  constructor
  · intro e he
    simp [combinators.either, resultOr, he]
  · intro v hv
    simp [combinators.either, resultOr, hv]

/-- C5: not(p) succeeds with the unit value and remainder exactly the input
iff p fails on that input, and returns Err(UnexpectedMatch(input)) iff p
succeeds on that input. -/
theorem C5_not_negative_lookahead {α : Type} (p : ParserFun α) (input : Str) :
    (combinators.not p input = .ok ((), input) ↔ ∃ e, p input = .error e) ∧
    (combinators.not p input = .error (.UnexpectedMatch input) ↔
      ∃ v, p input = .ok v) := by
  cases h : p input with
  | error e =>
    constructor
    · simp [combinators.not, isErr, h]
    · simp [combinators.not, isErr, h]
  | ok v =>
    constructor
    · simp [combinators.not, isErr, h]
    · simp [combinators.not, isErr, h]

/-- C7: the loop condition of repeat_range never panics: the modelled
Option::expect branch is only reached when the upper-bound check has
established that stop is Some, so repeatStep always yields a value. -/
theorem C7_repeat_step_never_panics {α : Type} (p : ParserFun α)
    (stop : Option Nat) (len : Nat) (input : Str) :
    (combinators.repeatStep p stop len input).isSome = true := by
  cases h : p input with
  | error e => simp [combinators.repeatStep, h]
  | ok t =>
    cases stop with
    | none => simp [combinators.repeatStep, h]
    | some stp =>
      by_cases hlt : len < stp
      · simp [combinators.repeatStep, h, hlt]
      · simp [combinators.repeatStep, h, hlt, expectModel]

/-- C9: quantified is the identity: wrapping a parser in quantified changes
nothing about its parse results. -/
theorem C9_quantified_identity (p : ParserFun ParseElement) (input : Str) :
    combinators.quantified p input = p input := rfl

/-- C10: boxing and trait-method dispatch preserve behaviour:
BoxedParser::new(p).parse equals p.parse, and the trait methods Parser::map
and Parser::predicate agree with the free functions combinators::map and
combinators::predicate on every input. -/
theorem C10_boxing_preserves_behavior {α β : Type} (p : ParserFun α)
    (f : α → β) (g : α → Bool) (input : Str) :
    (BoxedParser.new p).parse input = p input ∧
    (Parser.map p f).parse input = combinators.map p f input ∧
    (Parser.predicate p g).parse input = combinators.predicate p g input :=
  ⟨rfl, rfl, rfl⟩

/-- Whatever state the loop exits in extends the accumulator by a chain of
successful applications of the sub-parser, and its length stays within the
upper bound. -/
theorem repeatRangeAux_spec {α : Type} {p : ParserFun α} {stop : Option Nat} :
    ∀ (fuel : Nat) (acc : List α) (input : Str) (res : List α) (rem : Str),
      combinators.repeatRangeAux p stop fuel acc input = some (res, rem) →
      (∃ tail, res = acc ++ tail ∧ Chain p input tail rem) ∧
      (∀ k, stop = some k → res.length ≤ max acc.length k) := by
  intro fuel
  induction fuel with
  | zero =>
    intro acc input res rem h
    simp [combinators.repeatRangeAux] at h
  | succ f ih =>
    intro acc input res rem h
    simp only [combinators.repeatRangeAux] at h
    cases hstep : combinators.repeatStep p stop acc.length input with
    | none =>
      rw [hstep] at h
      simp at h
      obtain ⟨hres, hrem⟩ := h
      subst hres; subst hrem
      exact ⟨⟨[], by simp, rfl⟩, fun k hk => by simp⟩
    | some r =>
      cases r with
      | error e =>
        rw [hstep] at h
        simp at h
        obtain ⟨hres, hrem⟩ := h
        subst hres; subst hrem
        exact ⟨⟨[], by simp, rfl⟩, fun k hk => by simp⟩
      | ok t =>
        obtain ⟨r0, rem0⟩ := t
        rw [hstep] at h
        simp at h
        obtain ⟨hp, hbound⟩ := repeatStep_eq_ok_iff.mp hstep
        obtain ⟨⟨tail, htail, hchain⟩, hlen⟩ := ih (acc ++ [r0]) rem0 res rem h
        constructor
        · refine ⟨r0 :: tail, ?_, rem0, hp, hchain⟩
          rw [htail]
          simp
        · intro k hk
          have h1 := hlen k hk
          have h2 := hbound k hk
          have h3 : max (acc ++ [r0]).length k = k := by
            simp
            omega
          have h4 : max acc.length k = k := Nat.max_eq_right (by omega)
          rw [h3] at h1
          omega

/-- When every success of the sub-parser strictly shrinks the input, the
loop exits within input.length + 1 iterations. -/
theorem repeatRangeAux_isSome_of_progress {α : Type} {p : ParserFun α}
    (stop : Option Nat)
    (hprog : ∀ (s : Str) (r : α) (rem : Str), p s = .ok (r, rem) → rem.length < s.length) :
    ∀ (fuel : Nat) (input : Str) (acc : List α), input.length < fuel →
      (combinators.repeatRangeAux p stop fuel acc input).isSome = true := by
  intro fuel
  induction fuel with
  | zero =>
    intro input acc h
    omega
  | succ f ih =>
    intro input acc h
    simp only [combinators.repeatRangeAux]
    cases hstep : combinators.repeatStep p stop acc.length input with
    | none => simp
    | some r =>
      cases r with
      | error e => simp
      | ok t =>
        obtain ⟨r0, rem0⟩ := t
        simp only
        have hp := (repeatStep_eq_ok_iff.mp hstep).1
        have := hprog input r0 rem0 hp
        exact ih rem0 (acc ++ [r0]) (by omega)

/-- C1 counterexample: the claim fails for pair. With any_char then
match_literal "x" on input "ab", the first parser consumes 'a' and the
second fails on the remainder "b"; the returned error carries the partially
consumed suffix "b", not the original input "ab". -/
theorem C1_cex_pair_error_carries_suffix :
    combinators.pair any_char (match_literal ['x']) ['a', 'b']
        = .error (.Error ['b']) ∧
    (['b'] : Str) ≠ ['a', 'b'] := by
  decide

/-- C1 amended: the combinators that construct their own failure, predicate
(on a false predicate over a successful sub-parse) and not (on an
unexpectedly successful sub-parse), report the original input passed to
them; sequencing combinators such as pair instead propagate a failing
sub-parser's error unchanged, so it can carry a partially consumed suffix. -/
theorem C1_own_failures_report_original_input {α β : Type}
    (p : ParserFun α) (pred : α → Bool) (q : ParserFun β) (input : Str)
    (r : α) (rem : Str) (v : β × Str)
    (hp : p input = .ok (r, rem)) (hpred : pred r = false)
    (hq : q input = .ok v) :
    combinators.predicate p pred input = .error (.Error input) ∧
    combinators.not q input = .error (.UnexpectedMatch input) := by
  constructor
  · simp [combinators.predicate, Except.bind, hp, hpred]
  · simp [combinators.not, isErr, hq]

/-- C1 witness: predicate over any_char with an always-false check fails on
"a" reporting "a" itself, and not(any_char) fails on "a" reporting "a". -/
theorem C1_own_failures_report_original_input_witness :
    combinators.predicate any_char (fun c => decide (c = 'z')) ['a']
        = .error (.Error ['a']) ∧
    combinators.not any_char ['a'] = .error (.UnexpectedMatch ['a']) :=
  C1_own_failures_report_original_input any_char (fun c => decide (c = 'z'))
    any_char ['a'] 'a' [] ('a', []) rfl (by decide) rfl

/-- C3: with start = stop = k, repeat_range on an input where p matches
exactly k times and then fails succeeds with the k results and the remainder
after them; with only k-1 matches it fails with RepeatLower(k); with k+1
available matches it still succeeds with exactly k results, leaving the
(k+1)-th occurrence unconsumed in the remainder. -/
theorem C3_repeat_range_boundary_laws {α : Type} (p : ParserFun α) (k : Nat)
    (hk : 1 ≤ k) :
    (∀ (input mid : Str) (rs : List α) (fuel : Nat),
        rs.length = k → Chain p input rs mid → isErr (p mid) = true →
        k < fuel →
        combinators.repeat_range p k (some k) fuel input
          = some (.ok (rs, mid))) ∧
    (∀ (input mid : Str) (rs : List α) (fuel : Nat),
        rs.length = k - 1 → Chain p input rs mid → isErr (p mid) = true →
        k - 1 < fuel →
        combinators.repeat_range p k (some k) fuel input
          = some (.error (.RepeatLower k))) ∧
    (∀ (input mid : Str) (rs : List α) (fuel : Nat),
        rs.length = k → Chain p input rs mid → isErr (p mid) = false →
        k < fuel →
        combinators.repeat_range p k (some k) fuel input
          = some (.ok (rs, mid))) := by
  refine ⟨?_, ?_, ?_⟩
  · intro input mid rs fuel hlen hchain _ hfuel
    have haux := repeatRangeAux_chain_stop rs [] input mid fuel hchain
      (by simpa using hlen) (by omega)
    simp [combinators.repeat_range, haux, hlen]
  · intro input mid rs fuel hlen hchain herr hfuel
    have haux := @repeatRangeAux_chain_err α p (some k) rs [] input mid fuel
      hchain herr
      (by
        intro stp hs
        have h2 := Option.some.inj hs
        subst h2
        simp
        omega)
      (by omega)
    have hlt : ¬ k ≤ rs.length := by omega
    simp [combinators.repeat_range, haux, hlt]
  · intro input mid rs fuel hlen hchain _ hfuel
    have haux := repeatRangeAux_chain_stop rs [] input mid fuel hchain
      (by simpa using hlen) (by omega)
    simp [combinators.repeat_range, haux, hlen]

/-- C3 witness: match_literal "e" with k = 2 on "eef" (exactly two matches
then non-matching text) succeeds with two results and remainder "f". -/
theorem C3_repeat_range_boundary_laws_witness :
    combinators.repeat_range (match_literal ['e']) 2 (some 2) 3 ['e', 'e', 'f']
      = some (.ok ([(), ()], ['f'])) :=
  (C3_repeat_range_boundary_laws (match_literal ['e']) 2 (by omega)).1
    ['e', 'e', 'f'] ['f'] [(), ()] 3 rfl
    ⟨['e', 'f'], by decide, ['f'], by decide, rfl⟩ (by decide) (by omega)

/-- C4 counterexample: with upper bound 1 on an input where match_literal
"e" can match three times, repeat_range succeeds with one result instead of
returning Err(RepeatUpper(1)): the RepeatUpper value only terminates the
internal loop and is discarded by the while-let. -/
theorem C4_cex_upper_bound_returns_ok :
    combinators.repeat_range (match_literal ['e']) 0 (some 1) 5 ['e', 'e', 'e']
        = some (.ok ([()], ['e', 'e'])) ∧
    combinators.repeat_range (match_literal ['e']) 0 (some 1) 5 ['e', 'e', 'e']
        ≠ some (.error (.RepeatUpper 1)) := by
  decide

/-- C4 amended: RepeatUpper is constructed inside repeat_range only to stop
the loop and never escapes: every result repeat_range returns is either Ok
or Err(RepeatLower(start)). -/
theorem C4_repeat_range_never_returns_repeat_upper {α : Type}
    (p : ParserFun α) (start fuel : Nat) (stop : Option Nat) (input : Str)
    (res : ParserResult (List α))
    (h : combinators.repeat_range p start stop fuel input = some res) :
    (∃ v rem, res = .ok (v, rem)) ∨ res = .error (.RepeatLower start) := by
  unfold combinators.repeat_range at h
  cases haux : combinators.repeatRangeAux p stop fuel [] input with
  | none =>
    rw [haux] at h
    simp at h
  | some x =>
    obtain ⟨result, rem⟩ := x
    rw [haux] at h
    simp at h
    by_cases hle : start ≤ result.length
    · left
      exact ⟨result, rem, by rw [← h]; simp [hle]⟩
    · right
      rw [← h]
      simp [hle]

/-- C4 witness: match_literal "e" with lower bound 2 on "ef" collects one
result and fails with RepeatLower(2), an outcome of the allowed shape. -/
theorem C4_repeat_range_never_returns_repeat_upper_witness :
    (∃ v rem, (Except.error (ParserError.RepeatLower 2) : ParserResult (List Unit))
        = .ok (v, rem)) ∨
    (Except.error (ParserError.RepeatLower 2) : ParserResult (List Unit))
        = .error (.RepeatLower 2) :=
  C4_repeat_range_never_returns_repeat_upper (match_literal ['e']) 2 5 none
    ['e', 'f'] (.error (.RepeatLower 2)) (by decide)

/-- C6 counterexample: zero_or_more over not(any_char) diverges on empty
input: not(any_char) succeeds there without consuming anything, so the
repeat_range loop never exits, at any fuel. -/
theorem C6_cex_nonconsuming_repeat_diverges :
    Diverges (fun fuel =>
      combinators.zero_or_more (combinators.not any_char) fuel []) := by
  intro fuel
  have h : ∀ (f : Nat) (acc : List Unit),
      combinators.repeatRangeAux (combinators.not any_char) none f acc [] = none := by
    intro f
    induction f with
    | zero => intro acc; rfl
    | succ f2 ih =>
      intro acc
      have hstep : combinators.repeatStep (combinators.not any_char) none
          acc.length [] = some (.ok ((), [])) := by
        simp [combinators.repeatStep, combinators.not, any_char, isErr]
      simp only [combinators.repeatRangeAux, hstep]
      exact ih (acc ++ [()])
  simp [combinators.zero_or_more, combinators.repeat_range, h]

/-- C6 amended: the repetition combinators terminate on every input whose
sub-parser strictly consumes input on each success: the loop exits within
input.length + 1 iterations and repeat_range returns a result. Without that
progress property the loop can run forever, as the counterexample shows. -/
theorem C6_repeat_range_terminates_of_progress {α : Type} (p : ParserFun α)
    (start : Nat) (stop : Option Nat) (input : Str)
    (hprog : ∀ (s : Str) (r : α) (rem : Str), p s = .ok (r, rem) →
      rem.length < s.length) :
    (combinators.repeat_range p start stop (input.length + 1) input).isSome
      = true := by
  have h := repeatRangeAux_isSome_of_progress stop hprog (input.length + 1)
    input [] (by omega)
  cases haux : combinators.repeatRangeAux p stop (input.length + 1) [] input with
  | none => rw [haux] at h; simp at h
  | some x => simp [combinators.repeat_range, haux]

/-- C6 witness: any_char strictly consumes on success, so repeat_range over
it terminates on "ab" within three iterations. -/
theorem C6_repeat_range_terminates_of_progress_witness :
    (combinators.repeat_range any_char 0 none 3 ['a', 'b']).isSome = true :=
  C6_repeat_range_terminates_of_progress any_char 0 none ['a', 'b']
    (by
      intro s r rem h
      cases s with
      | nil => simp [any_char] at h
      | cons c t =>
        simp [any_char] at h
        simp [h.2.symm])

/-- C8: whenever repeat_range succeeds with vector v and remainder r, at
least start results were collected, at most stop of them when stop is Some,
and r is exactly the remainder after v.length successive successful
applications of the sub-parser from the original input. -/
theorem C8_repeat_range_success_bounds {α : Type} (p : ParserFun α)
    (start fuel : Nat) (stop : Option Nat) (input rem : Str) (v : List α)
    (h : combinators.repeat_range p start stop fuel input
      = some (.ok (v, rem))) :
    start ≤ v.length ∧ (∀ k, stop = some k → v.length ≤ k) ∧
      Chain p input v rem := by
  unfold combinators.repeat_range at h
  cases haux : combinators.repeatRangeAux p stop fuel [] input with
  | none =>
    rw [haux] at h
    simp at h
  | some x =>
    obtain ⟨result, rem0⟩ := x
    rw [haux] at h
    have h2 : (if start ≤ result.length
          then (Except.ok (result, rem0) : ParserResult (List α))
          else .error (.RepeatLower start)) = .ok (v, rem) :=
      Option.some.inj h
    obtain ⟨⟨tail, htail, hchain⟩, hlen⟩ := repeatRangeAux_spec fuel [] input
      result rem0 haux
    simp only [List.nil_append] at htail
    subst htail
    by_cases hle : start ≤ result.length
    · rw [if_pos hle] at h2
      cases h2
      refine ⟨hle, fun k hk => ?_, hchain⟩
      simpa using hlen k hk
    · rw [if_neg hle] at h2
      exact absurd h2 (by simp)

/-- C8 witness: repeat_range of match_literal "e" with start 1 and stop 5
on "eef" succeeds with two results and remainder "f", and the bounds and
chain hold there. -/
theorem C8_repeat_range_success_bounds_witness :
    1 ≤ ([(), ()] : List Unit).length ∧
    (∀ k, (some 5 : Option Nat) = some k → ([(), ()] : List Unit).length ≤ k) ∧
    Chain (match_literal ['e']) ['e', 'e', 'f'] [(), ()] ['f'] :=
  C8_repeat_range_success_bounds (match_literal ['e']) 1 4 (some 5)
    ['e', 'e', 'f'] ['f'] [(), ()] (by decide)
